import Mathlib

/-!
Verification development for the realtime-object synchronisation primitive of
the ros2-pendulum repository.

The public interface lives in
src/pendulum_utils/include/pendulum_utils/RealtimeObject.hpp (namespace
farbot).  The declaration-level facts of that header (policy enums, acquire
return types, SFINAE availability of the replace methods, noexcept
qualifiers, deleted special members of ScopedAccess) are transcribed
directly below.  The slot-pool and exchange-protocol implementation is in
pendulum_utils/detail/RealtimeObject.tcc, which is not part of the given
sources; the pool state machine is therefore modelled from the
specification (each such definition says so in its doc comment).
-/

namespace FarbotModel

/-- Transcribed from RealtimeObject.hpp lines 36-40: the policy selector
enum RealtimeObjectOptions with its two values. -/
inductive RealtimeObjectOptions
  | nonRealtimeMutatable
  | realtimeMutatable
deriving DecidableEq, Repr

/-- Transcribed from RealtimeObject.hpp lines 42-46: enum ThreadType. -/
inductive ThreadType
  | realtime
  | nonRealtime
deriving DecidableEq, Repr

/-- Constness of a reference returned by an acquire method: a mutable
reference T, or a const reference const T. -/
inductive RefKind
  | mutableRef
  | constRef
deriving DecidableEq, Repr

/-- Transcribed from RealtimeObject.hpp lines 76-77:
using RealtimeAcquireReturnType =
  std::conditional_t<Options == RealtimeObjectOptions::nonRealtimeMutatable, const T, T>. -/
def RealtimeAcquireReturnType (o : RealtimeObjectOptions) : RefKind :=
  if o = RealtimeObjectOptions.nonRealtimeMutatable then RefKind.constRef
  else RefKind.mutableRef

/-- Transcribed from RealtimeObject.hpp lines 78-79:
using NonRealtimeAcquireReturnType =
  std::conditional_t<Options == RealtimeObjectOptions::realtimeMutatable, const T, T>. -/
def NonRealtimeAcquireReturnType (o : RealtimeObjectOptions) : RefKind :=
  if o = RealtimeObjectOptions.realtimeMutatable then RefKind.constRef
  else RefKind.mutableRef

/-- The side designated as mutator by the configured policy: under
realtimeMutatable the realtime side, under nonRealtimeMutatable the
non-realtime side. -/
def mutatorSide (o : RealtimeObjectOptions) : ThreadType :=
  match o with
  | RealtimeObjectOptions.realtimeMutatable => ThreadType.realtime
  | RealtimeObjectOptions.nonRealtimeMutatable => ThreadType.nonRealtime

/-- The return kind of the acquire method of a given side under a given
policy. -/
def acquireReturnKind (o : RealtimeObjectOptions) (side : ThreadType) : RefKind :=
  match side with
  | ThreadType.realtime => RealtimeAcquireReturnType o
  | ThreadType.nonRealtime => NonRealtimeAcquireReturnType o

/-- Transcribed from RealtimeObject.hpp lines 101-106: realtimeReplace is
declared under std::enable_if_t<O == RealtimeObjectOptions::realtimeMutatable, ...>,
so the overload exists (participates in resolution) exactly when the policy
is realtimeMutatable. -/
def realtimeReplaceEnabled (o : RealtimeObjectOptions) : Bool :=
  o = RealtimeObjectOptions.realtimeMutatable

/-- Transcribed from RealtimeObject.hpp lines 129-131: nonRealtimeReplace is
declared under std::enable_if_t<O == RealtimeObjectOptions::nonRealtimeMutatable, ...>,
so the overload exists exactly when the policy is nonRealtimeMutatable. -/
def nonRealtimeReplaceEnabled (o : RealtimeObjectOptions) : Bool :=
  o = RealtimeObjectOptions.nonRealtimeMutatable

/-- Whether the replace method of a given side exists under a given policy. -/
def replaceEnabled (o : RealtimeObjectOptions) (side : ThreadType) : Bool :=
  match side with
  | ThreadType.realtime => realtimeReplaceEnabled o
  | ThreadType.nonRealtime => nonRealtimeReplaceEnabled o

/-- The six public methods of RealtimeObject whose exception specification
the header declares. -/
inductive MethodName
  | realtimeAcquire
  | realtimeRelease
  | realtimeReplace
  | nonRealtimeAcquire
  | nonRealtimeRelease
  | nonRealtimeReplace
deriving DecidableEq, Repr

/-- Transcribed from RealtimeObject.hpp: realtimeAcquire (line 90),
realtimeRelease (line 96) and realtimeReplace (line 103) carry the noexcept
qualifier; nonRealtimeAcquire (line 117), nonRealtimeRelease (line 124) and
nonRealtimeReplace (line 131) do not. -/
def isNoexcept (m : MethodName) : Bool :=
  match m with
  | MethodName.realtimeAcquire => true
  | MethodName.realtimeRelease => true
  | MethodName.realtimeReplace => true
  | MethodName.nonRealtimeAcquire => false
  | MethodName.nonRealtimeRelease => false
  | MethodName.nonRealtimeReplace => false

/-- Which side each public method belongs to. -/
def methodSide (m : MethodName) : ThreadType :=
  match m with
  | MethodName.realtimeAcquire => ThreadType.realtime
  | MethodName.realtimeRelease => ThreadType.realtime
  | MethodName.realtimeReplace => ThreadType.realtime
  | MethodName.nonRealtimeAcquire => ThreadType.nonRealtime
  | MethodName.nonRealtimeRelease => ThreadType.nonRealtime
  | MethodName.nonRealtimeReplace => ThreadType.nonRealtime

/-- Deletedness of the four special members of a class: true means the
member is declared = delete. -/
structure SpecialMembers where
  copyCtorDeleted : Bool
  moveCtorDeleted : Bool
  copyAssignDeleted : Bool
  moveAssignDeleted : Bool
deriving DecidableEq, Repr

/-- Transcribed from RealtimeObject.hpp lines 162-165: inside
ScopedAccess (declared for every policy Options and every threadType) the
copy constructor, move constructor, copy assignment and move assignment
are all declared = delete.  The declarations do not depend on the template
arguments. -/
def scopedAccessSpecialMembers (_o : RealtimeObjectOptions) (_t : ThreadType) :
    SpecialMembers :=
  { copyCtorDeleted := true
    moveCtorDeleted := true
    copyAssignDeleted := true
    moveAssignDeleted := true }

/-!
The slot pool and exchange protocol.  The implementing file
pendulum_utils/detail/RealtimeObject.tcc is not among the given sources, so
the pool state machine below is modelled from the specification, sections
3 and 4.1-4.3.
-/

/-- Modelled from the spec: the atomic tri-state tag of a value slot
(section 3): Free (unused, writable), Current (the most recently published
value), Reading (a previously Current value still held by in-flight
readers). -/
inductive SlotState
  | free
  | current
  | reading
deriving DecidableEq, Repr

/-- Modelled from the spec: one storage cell of the Pool, holding one
instance of T, its atomic tag and its reader count (section 3). -/
structure Slot (T : Type) where
  st : SlotState
  readers : Nat
  val : T
deriving DecidableEq, Repr

/-- A Pool is an ordered fixed-capacity collection of slots (section 3);
capacity is the list length. -/
abbrev Pool (T : Type) := List (Slot T)

/-- Update the slot at position i with f; out-of-range indices leave the
pool unchanged. -/
def updateAt {T : Type} : Pool T → Nat → (Slot T → Slot T) → Pool T
  | [], _, _ => []
  | s :: rest, 0, f => f s :: rest
  | s :: rest, Nat.succ n, f => s :: updateAt rest n f

/-- Index of the first slot satisfying q, scanning in order. -/
def findIdxP {T : Type} (q : Slot T → Bool) : Pool T → Option Nat
  | [] => none
  | s :: rest => if q s then some 0 else (findIdxP q rest).map (fun n => n + 1)

/-- Modelled from the spec: findFreeSlot scans the slots for one tagged
Free and returns its index; none models the NoFreeSlot failure
(section 4.1). -/
def findFreeSlot {T : Type} (p : Pool T) : Option Nat :=
  findIdxP (fun s => s.st == SlotState.free) p

/-- Modelled from the spec: the demotion performed by publish on the
previously Current slot: to Free if its reader count is zero, otherwise it
is left Reading so in-flight readers keep a valid reference (section 4.1).
Slots that are not Current are untouched. -/
def demote {T : Type} (s : Slot T) : Slot T :=
  if s.st = SlotState.current then
    if s.readers = 0 then { s with st := SlotState.free }
    else { s with st := SlotState.reading }
  else s

/-- Modelled from the spec: constructing the new value v into slot i and
atomically publishing it: slot i is retagged Current holding v, and the
previous Current slot is demoted (section 4.1, publish, together with the
construct-into-free-slot step of replace in sections 4.2/4.3). -/
def publishVal {T : Type} (p : Pool T) (i : Nat) (v : T) : Pool T :=
  updateAt (p.map demote) i (fun s => { s with st := SlotState.current, val := v })

/-- Index of the Current slot, if any. -/
def currentIdx {T : Type} (p : Pool T) : Option Nat :=
  findIdxP (fun s => s.st == SlotState.current) p

/-- The atomic increment of a slot's reader count performed by beginRead. -/
def incReaders {T : Type} (s : Slot T) : Slot T :=
  { s with readers := s.readers + 1 }

/-- Modelled from the spec: beginRead atomically reads the tag of the
Current slot and increments its reader count in one indivisible step,
returning the slot index; before the first publication there is no Current
slot and the result is none (section 4.1). -/
def beginRead {T : Type} (p : Pool T) : Option (Nat × Pool T) :=
  match currentIdx p with
  | none => none
  | some i => some (i, updateAt p i incReaders)

/-- The slot transformation performed by endRead: decrement the reader
count; if it reaches zero and the slot is no longer Current, retag it
Free (section 4.1). -/
def endReadSlot {T : Type} (s : Slot T) : Slot T :=
  if s.readers - 1 = 0 then
    if s.st = SlotState.current then { s with readers := s.readers - 1 }
    else { s with readers := s.readers - 1, st := SlotState.free }
  else { s with readers := s.readers - 1 }

/-- Modelled from the spec: endRead decrements the reader count of slot i;
if it reaches zero and the slot is no longer Current, the slot is retagged
Free (section 4.1). -/
def endRead {T : Type} (p : Pool T) (i : Nat) : Pool T :=
  updateAt p i endReadSlot

/-- One atomic operation of the Slot Pool, the alphabet of an
interleaving: a beginRead, an endRead of a slot index, or a publish of a
new value into a free slot (the atomic commit point of replace). -/
inductive PoolOp (T : Type)
  | beginReadOp
  | endReadOp (i : Nat)
  | publishOp (i : Nat) (v : T)

/-- Modelled from the spec: the atomic transition of the pool under one
operation.  publishOp is only ever invoked on an index obtained from
findFreeSlot, so it fires only when slot i exists and is tagged Free;
otherwise the transition is the identity (protocol misuse is a programmer
error, section 7). -/
def step {T : Type} (p : Pool T) : PoolOp T → Pool T
  | PoolOp.beginReadOp =>
    match beginRead p with
    | none => p
    | some x => x.2
  | PoolOp.endReadOp i => endRead p i
  | PoolOp.publishOp i v =>
    match p[i]? with
    | none => p
    | some s => if s.st = SlotState.free then publishVal p i v else p

/-- Run an interleaving (a finite sequence of atomic pool operations). -/
def run {T : Type} (p : Pool T) (tr : List (PoolOp T)) : Pool T :=
  tr.foldl step p

/-- The initial pool: n slots, each Free with reader count zero, holding
the initial value v (before the first publication). -/
def mkPool {T : Type} (n : Nat) (v : T) : Pool T :=
  List.replicate n { st := SlotState.free, readers := 0, val := v }

/-- Number of slots tagged Current. -/
def numCurrent {T : Type} (p : Pool T) : Nat :=
  p.countP (fun s => s.st == SlotState.current)

/-- Number of slots tagged Reading. -/
def numReading {T : Type} (p : Pool T) : Nat :=
  p.countP (fun s => s.st == SlotState.reading)

/-! Basic lemmas about the pool primitives. -/

theorem length_updateAt {T : Type} (p : Pool T) (i : Nat) (f : Slot T → Slot T) :
    (updateAt p i f).length = p.length := by
  induction p generalizing i with
  | nil => rfl
  | cons s rest ih =>
    cases i with
    | zero => rfl
    | succ n => simp [updateAt, ih]

theorem get?_updateAt_self {T : Type} (p : Pool T) (i : Nat) (f : Slot T → Slot T)
    (s : Slot T) (h : p[i]? = some s) :
    (updateAt p i f)[i]? = some (f s) := by
  induction p generalizing i with
  | nil => simp at h
  | cons a rest ih =>
    cases i with
    | zero =>
      simp at h
      subst h
      simp [updateAt]
    | succ n =>
      simp at h
      simpa [updateAt] using ih n h

theorem get?_updateAt_ne {T : Type} (p : Pool T) (i j : Nat) (f : Slot T → Slot T)
    (h : j ≠ i) : (updateAt p i f)[j]? = p[j]? := by
  induction p generalizing i j with
  | nil => rfl
  | cons a rest ih =>
    cases i with
    | zero =>
      cases j with
      | zero => exact absurd rfl h
      | succ m => simp [updateAt]
    | succ n =>
      cases j with
      | zero => simp [updateAt]
      | succ m =>
        simpa [updateAt] using ih n m (fun hc => h (by simp [hc]))

theorem countP_updateAt_congr {T : Type} (q : Slot T → Bool) (p : Pool T) (i : Nat)
    (f : Slot T → Slot T) (hf : ∀ s, q (f s) = q s) :
    (updateAt p i f).countP q = p.countP q := by
  induction p generalizing i with
  | nil => rfl
  | cons a rest ih =>
    cases i with
    | zero => simp [updateAt, List.countP_cons, hf]
    | succ n => simp [updateAt, List.countP_cons, ih]

theorem countP_updateAt_exchange {T : Type} (q : Slot T → Bool) (p : Pool T) (i : Nat)
    (f : Slot T → Slot T) (s : Slot T) (h : p[i]? = some s) :
    (updateAt p i f).countP q + (if q s then 1 else 0) =
      p.countP q + (if q (f s) then 1 else 0) := by
  induction p generalizing i with
  | nil => simp at h
  | cons a rest ih =>
    cases i with
    | zero =>
      simp at h
      subst h
      simp [updateAt, List.countP_cons]
      omega
    | succ n =>
      simp at h
      have := ih n h
      simp [updateAt, List.countP_cons]
      omega

theorem findIdxP_some {T : Type} (q : Slot T → Bool) (p : Pool T) (i : Nat)
    (h : findIdxP q p = some i) : ∃ s, p[i]? = some s ∧ q s = true := by
  induction p generalizing i with
  | nil => simp [findIdxP] at h
  | cons a rest ih =>
    by_cases ha : q a
    · simp [findIdxP, ha] at h
      subst h
      exact ⟨a, by simp, ha⟩
    · simp [findIdxP, ha] at h
      obtain ⟨n, hn, rfl⟩ := h
      obtain ⟨s, hs, hqs⟩ := ih n hn
      exact ⟨s, by simpa using hs, hqs⟩

theorem findIdxP_none {T : Type} (q : Slot T → Bool) (p : Pool T)
    (h : findIdxP q p = none) : ∀ s ∈ p, q s = false := by
  induction p with
  | nil => intro s hs; simp at hs
  | cons a rest ih =>
    by_cases ha : q a
    · simp [findIdxP, ha] at h
    · simp [findIdxP, ha] at h
      intro s hs
      rcases List.mem_cons.mp hs with rfl | hs
      · simpa using ha
      · exact ih h s hs

theorem findIdxP_isSome {T : Type} (q : Slot T → Bool) (p : Pool T) (s : Slot T)
    (hs : s ∈ p) (hq : q s = true) : (findIdxP q p).isSome = true := by
  induction p with
  | nil => simp at hs
  | cons a rest ih =>
    by_cases ha : q a
    · simp [findIdxP, ha]
    · rcases List.mem_cons.mp hs with rfl | hmem
      · exact absurd hq (by simpa using ha)
      · simp [findIdxP, ha, Option.isSome_map]
        simpa using ih hmem

theorem findIdxP_eq_of_first {T : Type} (q : Slot T → Bool) (p : Pool T) (i : Nat)
    (s : Slot T) (hi : p[i]? = some s) (hq : q s = true)
    (hbefore : ∀ j t, j < i → p[j]? = some t → q t = false) :
    findIdxP q p = some i := by
  induction p generalizing i with
  | nil => simp at hi
  | cons a rest ih =>
    cases i with
    | zero =>
      simp at hi
      subst hi
      simp [findIdxP, hq]
    | succ n =>
      have ha : q a = false := hbefore 0 a (Nat.succ_pos n) (by simp)
      simp at hi
      have := ih n hi (fun j t hj ht => hbefore (j + 1) t (Nat.succ_lt_succ hj) (by simpa using ht))
      simp [findIdxP, ha, this]

/-! Lemmas about the tag transitions of the individual operations. -/

theorem demote_st_beq {T : Type} (s : Slot T) :
    ((demote s).st == SlotState.current) = false := by
  unfold demote
  by_cases h : s.st = SlotState.current
  · by_cases hr : s.readers = 0 <;> simp [h, hr]
  · simp [h]

theorem incReaders_st {T : Type} (s : Slot T) : (incReaders s).st = s.st := rfl

theorem incReaders_val {T : Type} (s : Slot T) : (incReaders s).val = s.val := rfl

theorem endReadSlot_st_beq {T : Type} (s : Slot T) :
    ((endReadSlot s).st == SlotState.current) = (s.st == SlotState.current) := by
  unfold endReadSlot
  by_cases h0 : s.readers - 1 = 0 <;> cases hst : s.st <;> simp [h0, hst]

theorem endReadSlot_val {T : Type} (s : Slot T) : (endReadSlot s).val = s.val := by
  unfold endReadSlot
  by_cases h0 : s.readers - 1 = 0 <;> by_cases hc : s.st = SlotState.current <;>
    simp [h0, hc]

theorem numCurrent_map_demote {T : Type} (p : Pool T) :
    numCurrent (p.map demote) = 0 := by
  unfold numCurrent
  rw [List.countP_map]
  apply List.countP_eq_zero.mpr
  intro s _
  simp [Function.comp, demote_st_beq]

theorem numCurrent_publishVal {T : Type} (p : Pool T) (i : Nat) (v : T)
    (h : i < p.length) : numCurrent (publishVal p i v) = 1 := by
  have hlen : i < (p.map demote).length := by simpa using h
  have ha : (p.map demote)[i]? = some ((p.map demote)[i]) := List.getElem?_eq_getElem hlen
  have hmem : (p.map demote)[i] ∈ p.map demote := List.getElem_mem hlen
  obtain ⟨b, _, hb⟩ := List.mem_map.mp hmem
  have hq : (((p.map demote)[i]).st == SlotState.current) = false := by
    rw [← hb]; exact demote_st_beq b
  have hx := countP_updateAt_exchange (fun t => t.st == SlotState.current) (p.map demote) i
      (fun t => { t with st := SlotState.current, val := v }) ((p.map demote)[i]) ha
  have h0 : List.countP (fun t : Slot T => t.st == SlotState.current) (List.map demote p) = 0 :=
    numCurrent_map_demote p
  rw [h0] at hx
  have hq2 : ¬((demote (p[i])).st = SlotState.current) := by
    have hd := demote_st_beq (p[i])
    simpa using hd
  simp [hq2] at hx
  exact hx

theorem numCurrent_step_cases {T : Type} (p : Pool T) (op : PoolOp T) :
    numCurrent (step p op) = numCurrent p ∨ numCurrent (step p op) = 1 := by
  cases op with
  | beginReadOp =>
    left
    cases h : currentIdx p with
    | none => simp [step, beginRead, h]
    | some i =>
      simp only [step, beginRead, h]
      exact countP_updateAt_congr _ p i incReaders (fun s => by rw [incReaders_st])
  | endReadOp i =>
    left
    simp only [step, endRead]
    exact countP_updateAt_congr _ p i endReadSlot endReadSlot_st_beq
  | publishOp i v =>
    cases hp : p[i]? with
    | none => left; simp [step, hp]
    | some s =>
      by_cases hst : s.st = SlotState.free
      · right
        have hlt : i < p.length := by
          rcases List.getElem?_eq_some_iff.mp hp with ⟨hl, _⟩
          exact hl
        simp only [step, hp, hst, if_pos]
        exact numCurrent_publishVal p i v hlt
      · left
        simp [step, hp, hst]

theorem run_cons {T : Type} (p : Pool T) (op : PoolOp T) (tr : List (PoolOp T)) :
    run p (op :: tr) = run (step p op) tr := rfl

theorem numCurrent_run_le {T : Type} (p : Pool T) (tr : List (PoolOp T))
    (h : numCurrent p ≤ 1) : numCurrent (run p tr) ≤ 1 := by
  induction tr generalizing p with
  | nil => exact h
  | cons op rest ih =>
    rw [run_cons]
    apply ih
    rcases numCurrent_step_cases p op with hc | hc <;> omega

theorem numCurrent_run_eq_one {T : Type} (p : Pool T) (tr : List (PoolOp T))
    (h : numCurrent p = 1) : numCurrent (run p tr) = 1 := by
  induction tr generalizing p with
  | nil => exact h
  | cons op rest ih =>
    rw [run_cons]
    apply ih
    rcases numCurrent_step_cases p op with hc | hc <;> omega

theorem numCurrent_mkPool {T : Type} (n : Nat) (v : T) :
    numCurrent (mkPool n v) = 0 := by
  apply List.countP_eq_zero.mpr
  intro s hs
  have hsv := List.eq_of_mem_replicate hs
  subst hsv
  simp

theorem count_partition {T : Type} (p : Pool T) :
    p.countP (fun s => s.st == SlotState.free) + (numCurrent p + numReading p) = p.length := by
  unfold numCurrent numReading
  induction p with
  | nil => rfl
  | cons a rest ih =>
    simp only [List.countP_cons, List.length_cons]
    cases hst : a.st <;> simp [hst] <;> omega

/-- C2: for every pool capacity N ≥ 2 and every interleaving of atomic
pool operations started from the fresh pool: before the first publication
no slot is tagged Current; at every observable instant at most one slot is
tagged Current; and once the first value has been published (exactly one
slot is Current), every further interleaving of Slot Pool and Exchange
Protocol operations leaves exactly one slot tagged Current. -/
theorem single_current_invariant {T : Type} (v : T) (n : Nat) (hn : 2 ≤ n)
    (tr tr2 : List (PoolOp T)) :
    numCurrent (mkPool n v) = 0 ∧
    numCurrent (run (mkPool n v) tr) ≤ 1 ∧
    (numCurrent (run (mkPool n v) tr) = 1 →
      numCurrent (run (run (mkPool n v) tr) tr2) = 1) := by
  refine ⟨numCurrent_mkPool n v, ?_, ?_⟩
  · exact numCurrent_run_le _ tr (by rw [numCurrent_mkPool]; omega)
  · intro h1
    exact numCurrent_run_eq_one _ tr2 h1

/-- Witness for single_current_invariant: capacity 2, publish of the value
5 into slot 0, then a read session; exactly one slot stays Current. -/
theorem single_current_invariant_witness :
    numCurrent (run (run (mkPool 2 (0 : Nat)) [PoolOp.publishOp 0 5])
      [PoolOp.beginReadOp, PoolOp.endReadOp 0]) = 1 :=
  (single_current_invariant (0 : Nat) 2 (by decide) [PoolOp.publishOp 0 5]
      [PoolOp.beginReadOp, PoolOp.endReadOp 0]).2.2 (by decide)

/-- C9: findFreeSlot either returns the index of a slot tagged Free or
fails with NoFreeSlot (modelled as none); and whenever the capacity
exceeds the number of Current and Reading slots — the sizing invariant:
the pool is sized so that a Free slot remains while at most one Current
slot and at most one draining predecessor are occupied — the NoFreeSlot
branch is unreachable. -/
theorem findFreeSlot_spec {T : Type} (p : Pool T) :
    (∀ i, findFreeSlot p = some i → ∃ s, p[i]? = some s ∧ s.st = SlotState.free) ∧
    (findFreeSlot p = none → ∀ s ∈ p, s.st ≠ SlotState.free) ∧
    (numCurrent p + numReading p < p.length → (findFreeSlot p).isSome = true) := by
  refine ⟨?_, ?_, ?_⟩
  · intro i hi
    obtain ⟨s, hs, hq⟩ := findIdxP_some _ p i hi
    exact ⟨s, hs, by simpa using hq⟩
  · intro h s hs
    have hq := findIdxP_none _ p h s hs
    simpa using hq
  · intro hlt
    have hfree : 0 < p.countP (fun s => s.st == SlotState.free) := by
      have hp := count_partition p
      omega
    obtain ⟨s, hs, hq⟩ := List.countP_pos_iff.mp hfree
    exact findIdxP_isSome _ p s hs hq

/-- Witness for findFreeSlot_spec: a fresh pool of capacity 2 has slot 0
Free, and under the sizing invariant findFreeSlot succeeds. -/
theorem findFreeSlot_spec_witness :
    (∃ s, (mkPool 2 (0 : Nat))[0]? = some s ∧ s.st = SlotState.free) ∧
    (findFreeSlot (mkPool 2 (0 : Nat))).isSome = true :=
  ⟨(findFreeSlot_spec (mkPool 2 (0 : Nat))).1 0 (by decide),
    (findFreeSlot_spec (mkPool 2 (0 : Nat))).2.2 (by decide)⟩

/-!
The value published as Current, and the replace operation with a possibly
failing constructor.
-/

/-- The value held by the Current slot, if any (what a reader observes). -/
def currentVal {T : Type} (p : Pool T) : Option T :=
  match currentIdx p with
  | none => none
  | some i => (p[i]?).map Slot.val

/-- The value observed by an acquire: beginRead locates the Current slot
and the returned reference points at that slot's T. -/
def acquireRead {T : Type} (p : Pool T) : Option T :=
  match beginRead p with
  | none => none
  | some x => (x.2[x.1]?).map Slot.val

/-- The errors a replace call can surface: pool exhaustion, or a throwing
constructor of T. -/
inductive ReplaceError
  | noFreeSlot
  | ctorFailed
deriving DecidableEq, Repr

/-- Modelled from the spec: replace obtains a slot from findFreeSlot,
constructs a new T into it (ctor models the constructor call: some v on
success, none when T's constructor throws), then publishes the slot as
Current.  On NoFreeSlot the caller sees that failure; on constructor
failure the exception propagates to the caller of replace before any tag
has been modified (sections 4.2, 4.3 and 7). -/
def replaceWith {T : Type} (p : Pool T) (ctor : Option T) : Except ReplaceError (Pool T) :=
  match findFreeSlot p with
  | none => Except.error ReplaceError.noFreeSlot
  | some i =>
    match ctor with
    | none => Except.error ReplaceError.ctorFailed
    | some v => Except.ok (publishVal p i v)

/-- The pool as the caller sees it after a replace call: the published
pool on success, the untouched pool when replace failed (the error
propagates and no tag was modified). -/
def poolAfterReplace {T : Type} (p : Pool T) (ctor : Option T) : Pool T :=
  match replaceWith p ctor with
  | Except.ok q => q
  | Except.error _ => p

/-- Uniqueness of the published slot: slot i is Current and holds v, and
no other slot is Current. -/
def currentUniq {T : Type} (p : Pool T) (i : Nat) (v : T) : Prop :=
  (∃ r, p[i]? = some { st := SlotState.current, readers := r, val := v }) ∧
  ∀ j s, j ≠ i → p[j]? = some s → s.st ≠ SlotState.current

/-- Does an atomic pool operation publish? -/
def isPublishOp {T : Type} : PoolOp T → Bool
  | PoolOp.publishOp _ _ => true
  | _ => false

theorem currentUniq_updateAt {T : Type} (p : Pool T) (i j : Nat) (v : T)
    (f : Slot T → Slot T)
    (h1 : ∀ s, s.st = SlotState.current → (f s).st = SlotState.current ∧ (f s).val = s.val)
    (h2 : ∀ s, s.st ≠ SlotState.current → (f s).st ≠ SlotState.current)
    (h : currentUniq p i v) : currentUniq (updateAt p j f) i v := by
  obtain ⟨⟨r, hr⟩, huniq⟩ := h
  by_cases hij : j = i
  · subst hij
    constructor
    · refine ⟨(f { st := SlotState.current, readers := r, val := v }).readers, ?_⟩
      rw [get?_updateAt_self p j f _ hr]
      obtain ⟨hst, hval⟩ := h1 { st := SlotState.current, readers := r, val := v } rfl
      cases hfs : f { st := SlotState.current, readers := r, val := v } with
      | mk st rd vl =>
        rw [hfs] at hst hval
        simp at hst hval
        simp [hfs, hst, hval]
    · intro k s hk hs
      rw [get?_updateAt_ne p j k f hk] at hs
      exact huniq k s hk hs
  · constructor
    · refine ⟨r, ?_⟩
      rw [get?_updateAt_ne p j i f (fun hc => hij hc.symm)]
      exact hr
    · intro k s hk hs
      by_cases hkj : k = j
      · subst hkj
        cases hp : p[k]? with
        | none =>
          have hlen : p.length ≤ k := List.getElem?_eq_none_iff.mp hp
          have hnone : (updateAt p k f)[k]? = none := by
            apply List.getElem?_eq_none
            rw [length_updateAt]
            exact hlen
          rw [hnone] at hs
          exact absurd hs (by simp)
        | some t =>
          rw [get?_updateAt_self p k f t hp] at hs
          have hts : t.st ≠ SlotState.current := huniq k t hk hp
          have hft : f t = s := by injection hs
          rw [← hft]
          exact h2 t hts
      · rw [get?_updateAt_ne p j k f hkj] at hs
        exact huniq k s hk hs

theorem currentUniq_step {T : Type} (p : Pool T) (i : Nat) (v : T) (op : PoolOp T)
    (hop : isPublishOp op = false) (h : currentUniq p i v) :
    currentUniq (step p op) i v := by
  cases op with
  | beginReadOp =>
    cases hc : currentIdx p with
    | none => simpa [step, beginRead, hc] using h
    | some j =>
      simp only [step, beginRead, hc]
      apply currentUniq_updateAt p i j v incReaders
      · intro s hs
        exact ⟨by rw [incReaders_st]; exact hs, incReaders_val s⟩
      · intro s hs
        rw [incReaders_st]
        exact hs
      · exact h
  | endReadOp j =>
    simp only [step, endRead]
    apply currentUniq_updateAt p i j v endReadSlot
    · intro s hs
      have hb := endReadSlot_st_beq s
      rw [hs] at hb
      simp at hb
      exact ⟨hb, endReadSlot_val s⟩
    · intro s hs
      have hb := endReadSlot_st_beq s
      intro hc
      rw [hc] at hb
      simp at hb
      exact hs hb
    · exact h
  | publishOp j w => simp [isPublishOp] at hop

theorem currentUniq_run {T : Type} (p : Pool T) (i : Nat) (v : T)
    (tr : List (PoolOp T)) (htr : ∀ op ∈ tr, isPublishOp op = false)
    (h : currentUniq p i v) : currentUniq (run p tr) i v := by
  induction tr generalizing p with
  | nil => exact h
  | cons op rest ih =>
    rw [run_cons]
    exact ih (step p op)
      (fun o ho => htr o (List.mem_cons_of_mem op ho))
      (currentUniq_step p i v op (htr op (List.mem_cons_self op rest)) h)

theorem currentUniq_publishVal {T : Type} (p : Pool T) (i : Nat) (v : T)
    (h : i < p.length) : currentUniq (publishVal p i v) i v := by
  have hlen : i < (p.map demote).length := by simpa using h
  have ha : (p.map demote)[i]? = some ((p.map demote)[i]) := List.getElem?_eq_getElem hlen
  constructor
  · refine ⟨((p.map demote)[i]).readers, ?_⟩
    unfold publishVal
    rw [get?_updateAt_self (p.map demote) i _ _ ha]
  · intro j s hj hs
    unfold publishVal at hs
    rw [get?_updateAt_ne (p.map demote) i j _ hj] at hs
    rcases List.getElem?_eq_some_iff.mp hs with ⟨hlj, hgj⟩
    have hmem : s ∈ p.map demote := by
      rw [← hgj]; exact List.getElem_mem hlj
    obtain ⟨b, _, hb⟩ := List.mem_map.mp hmem
    intro hc
    have hd := demote_st_beq b
    rw [hb, hc] at hd
    simp at hd

theorem currentUniq_currentIdx {T : Type} (p : Pool T) (i : Nat) (v : T)
    (h : currentUniq p i v) : currentIdx p = some i := by
  obtain ⟨⟨r, hr⟩, huniq⟩ := h
  apply findIdxP_eq_of_first _ p i { st := SlotState.current, readers := r, val := v } hr
  · simp
  · intro j t hj ht
    have := huniq j t (Nat.ne_of_lt hj) ht
    simpa using this

theorem currentUniq_currentVal {T : Type} (p : Pool T) (i : Nat) (v : T)
    (h : currentUniq p i v) : currentVal p = some v := by
  obtain ⟨r, hr⟩ := h.1
  unfold currentVal
  rw [currentUniq_currentIdx p i v h]
  show (p[i]?).map Slot.val = some v
  rw [hr]
  rfl

theorem currentUniq_acquireRead {T : Type} (p : Pool T) (i : Nat) (v : T)
    (h : currentUniq p i v) : acquireRead p = some v := by
  obtain ⟨r, hr⟩ := h.1
  unfold acquireRead beginRead
  rw [currentUniq_currentIdx p i v h]
  show ((updateAt p i incReaders)[i]?).map Slot.val = some v
  rw [get?_updateAt_self p i incReaders _ hr]
  rfl

/-- C7: a value published by a completed replace(v) is observed by every
acquire that starts after the replace returned: after any further
interleaving of read-side operations (no further publish), the Current
slot holds exactly v, and an acquire (beginRead on either side) returns a
reference to v — never a stale or torn value. -/
theorem replace_publish_observed {T : Type} (p q : Pool T) (v : T)
    (tr : List (PoolOp T))
    (hrep : replaceWith p (some v) = Except.ok q)
    (htr : ∀ op ∈ tr, isPublishOp op = false) :
    currentVal (run q tr) = some v ∧ acquireRead (run q tr) = some v := by
  unfold replaceWith at hrep
  cases hf : findFreeSlot p with
  | none =>
    rw [hf] at hrep
    exact absurd hrep (by simp)
  | some i =>
    rw [hf] at hrep
    simp at hrep
    obtain ⟨s, hs, _⟩ := findIdxP_some _ p i hf
    have hlt : i < p.length := (List.getElem?_eq_some_iff.mp hs).1
    have hu : currentUniq (run q tr) i v := by
      apply currentUniq_run _ _ _ _ htr
      rw [← hrep]
      exact currentUniq_publishVal p i v hlt
    exact ⟨currentUniq_currentVal _ i v hu, currentUniq_acquireRead _ i v hu⟩

/-- Witness for replace_publish_observed: publishing 7 into a fresh pool
of capacity 2 and then starting a read observes 7. -/
theorem replace_publish_observed_witness :
    currentVal (run (publishVal (mkPool 2 (0 : Nat)) 0 7) [PoolOp.beginReadOp]) = some 7 ∧
    acquireRead (run (publishVal (mkPool 2 (0 : Nat)) 0 7) [PoolOp.beginReadOp]) = some 7 :=
  replace_publish_observed (mkPool 2 (0 : Nat)) (publishVal (mkPool 2 (0 : Nat)) 0 7) 7
    [PoolOp.beginReadOp] rfl (by decide)

/-- C5: when T's constructor fails during a replace call (ctor = none),
the failure propagates directly to the caller as the ctorFailed error, the
pool the caller sees is the unchanged one — in particular the target slot
obtained from findFreeSlot is still tagged Free, no slot's tag was
corrupted, and the previously published Current value remains Current and
observable. -/
theorem replace_ctor_failure {T : Type} (p : Pool T) (i : Nat)
    (h : findFreeSlot p = some i) :
    replaceWith p none = Except.error ReplaceError.ctorFailed ∧
    poolAfterReplace p none = p ∧
    (∃ s, (poolAfterReplace p none)[i]? = some s ∧ s.st = SlotState.free) ∧
    currentVal (poolAfterReplace p none) = currentVal p := by
  have herr : replaceWith p none = Except.error ReplaceError.ctorFailed := by
    unfold replaceWith
    rw [h]
  have hafter : poolAfterReplace p none = p := by
    unfold poolAfterReplace
    rw [herr]
  obtain ⟨s, hs, hq⟩ := findIdxP_some _ p i h
  refine ⟨herr, hafter, ⟨s, ?_, by simpa using hq⟩, by rw [hafter]⟩
  rw [hafter]
  exact hs

/-- Witness for replace_ctor_failure: a pool of capacity 2 with 5
published as Current in slot 0; a failing replace errors out, and the
Current value 5 is still observed afterwards. -/
theorem replace_ctor_failure_witness :
    replaceWith (publishVal (mkPool 2 (0 : Nat)) 0 5) none =
      Except.error ReplaceError.ctorFailed ∧
    currentVal (poolAfterReplace (publishVal (mkPool 2 (0 : Nat)) 0 5) none) =
      currentVal (publishVal (mkPool 2 (0 : Nat)) 0 5) :=
  ⟨(replace_ctor_failure (publishVal (mkPool 2 (0 : Nat)) 0 5) 1 (by decide)).1,
    (replace_ctor_failure (publishVal (mkPool 2 (0 : Nat)) 0 5) 1 (by decide)).2.2.2⟩

/-!
The ScopedAccess guard.  Its body lives in the detail header
(RealtimeObject.tcc), so its acquire/release bracketing is modelled from
the specification section 4.4; the facade declared in RealtimeObject.hpp
lines 138-146 forwards construction to the implementation's guard.
-/

/-- An event observable on a RealtimeObject during a guarded scope: an
acquire or release of one side (issued by the guard), or an action of the
guarded body. -/
inductive GuardEvent (A : Type)
  | acquireEv (side : ThreadType)
  | releaseEv (side : ThreadType)
  | bodyEv (a : A)

/-- The ways control can leave the guarded scope. -/
inductive ExitPath
  | normal
  | earlyReturn
  | exceptionUnwind

def isAcquireEv {A : Type} : GuardEvent A → Bool
  | GuardEvent.acquireEv _ => true
  | _ => false

def isReleaseEv {A : Type} : GuardEvent A → Bool
  | GuardEvent.releaseEv _ => true
  | _ => false

/-- Modelled from the spec: the event trace of one ScopedAccess guard of a
given side: construction calls that side's acquire; the body then runs;
destruction, reached on every exit path (normal completion, early return,
exception unwind), calls the matching release of the same side; the
emitted trace does not depend on the exit path (section 4.4, facade
declared in RealtimeObject.hpp lines 138-146). -/
def scopedAccessTrace {A : Type} (side : ThreadType) (body : List A) (_e : ExitPath) :
    List (GuardEvent A) :=
  GuardEvent.acquireEv side ::
    (body.map GuardEvent.bodyEv ++ [GuardEvent.releaseEv side])

/-- C6: for every side, every body and every exit path (normal, early
return, exception unwind), a ScopedAccess execution performs exactly one
acquire and exactly one matching release of that side: the acquire is the
first event, the release the last, and neither is ever duplicated or
omitted. -/
theorem scoped_access_balanced {A : Type} (side : ThreadType) (body : List A)
    (e : ExitPath) :
    (scopedAccessTrace side body e).countP isAcquireEv = 1 ∧
    (scopedAccessTrace side body e).countP isReleaseEv = 1 ∧
    (scopedAccessTrace side body e).head? = some (GuardEvent.acquireEv side) ∧
    (scopedAccessTrace side body e).getLast? = some (GuardEvent.releaseEv side) := by
  have hacq : List.countP (isAcquireEv ∘ GuardEvent.bodyEv) body = 0 :=
    List.countP_eq_zero.mpr (fun a _ => by simp [Function.comp, isAcquireEv])
  have hrel : List.countP (isReleaseEv ∘ GuardEvent.bodyEv) body = 0 :=
    List.countP_eq_zero.mpr (fun a _ => by simp [Function.comp, isReleaseEv])
  refine ⟨?_, ?_, rfl, ?_⟩
  · unfold scopedAccessTrace
    rw [List.countP_cons, List.countP_append, List.countP_map]
    simp [isAcquireEv, hacq]
  · unfold scopedAccessTrace
    rw [List.countP_cons, List.countP_append, List.countP_map]
    simp [isReleaseEv, hrel]
  · unfold scopedAccessTrace
    rw [show GuardEvent.acquireEv side ::
        (body.map GuardEvent.bodyEv ++ [GuardEvent.releaseEv side]) =
        (GuardEvent.acquireEv side :: body.map GuardEvent.bodyEv) ++
          [GuardEvent.releaseEv side] from rfl]
    exact List.getLast?_concat _

/-!
Step counts of the designated (realtime) side, for the wait-freedom
property.  Modelled from the spec sections 4.1, 4.2 and 5: every pool
operation is a bounded scan / compare-and-swap loop over the fixed slot
array; the designated side takes no lock and allocates nothing.
-/

/-- Modelled from the spec: the number of atomic steps of one scan over
the slot tags, stopping at the first hit; each iteration performs one
atomic tag inspection (section 4.1). -/
def scanSteps {T : Type} (q : Slot T → Bool) : Pool T → Nat
  | [] => 0
  | s :: rest => if q s then 1 else 1 + scanSteps q rest

/-- Modelled from the spec: atomic-step cost of the designated-side
acquire: the beginRead scan for the Current tag plus the indivisible
reader-count increment (section 4.2); no lock is taken, nothing is
allocated. -/
def realtimeAcquireSteps {T : Type} (p : Pool T) : Nat :=
  scanSteps (fun s => s.st == SlotState.current) p + 1

/-- Modelled from the spec: atomic-step cost of the designated-side
release: one atomic decrement and one conditional retag (section 4.2,
release calls endRead). -/
def realtimeReleaseSteps {T : Type} (_p : Pool T) : Nat := 2

/-- Modelled from the spec: atomic-step cost of the designated-side
replace: the findFreeSlot scan, one demotion pass over the slots and the
atomic retag of the target slot (section 4.2); T's own construction is
outside the step budget, as in the spec's guarantee. -/
def realtimeReplaceSteps {T : Type} (p : Pool T) : Nat :=
  scanSteps (fun s => s.st == SlotState.free) p + p.length + 1

theorem scanSteps_le_length {T : Type} (q : Slot T → Bool) (p : Pool T) :
    scanSteps q p ≤ p.length := by
  induction p with
  | nil => simp [scanSteps]
  | cons s rest ih =>
    unfold scanSteps
    by_cases h : q s <;> simp [h] <;> omega

theorem length_step {T : Type} (p : Pool T) (op : PoolOp T) :
    (step p op).length = p.length := by
  cases op with
  | beginReadOp =>
    cases h : currentIdx p with
    | none => simp [step, beginRead, h]
    | some i => simp [step, beginRead, h, length_updateAt]
  | endReadOp i => simp [step, endRead, length_updateAt]
  | publishOp i v =>
    cases hp : p[i]? with
    | none => simp [step, hp]
    | some s =>
      by_cases hst : s.st = SlotState.free
      · simp [step, hp, hst, publishVal, length_updateAt]
      · simp [step, hp, hst]

theorem length_run {T : Type} (p : Pool T) (tr : List (PoolOp T)) :
    (run p tr).length = p.length := by
  induction tr generalizing p with
  | nil => rfl
  | cons op rest ih => rw [run_cons, ih, length_step]

/-- C1: wait-freedom of the designated side in the sequential abstraction:
for every capacity n, initial value and interleaving tr of operations by
the other threads, the designated-side realtimeAcquire, realtimeRelease
and realtimeReplace each complete within a number of their own atomic
steps bounded by a function of the capacity alone — independent of tr,
that is, of what any other thread did or how long it holds its lock; by
construction the cost functions contain no blocking, locking or allocating
step. -/
theorem realtime_ops_bounded {T : Type} (n : Nat) (v : T) (tr : List (PoolOp T)) :
    realtimeAcquireSteps (run (mkPool n v) tr) ≤ n + 1 ∧
    realtimeReleaseSteps (run (mkPool n v) tr) ≤ 2 ∧
    realtimeReplaceSteps (run (mkPool n v) tr) ≤ 2 * n + 1 := by
  have hlen : (run (mkPool n v) tr).length = n := by
    rw [length_run]
    simp [mkPool]
  refine ⟨?_, le_refl 2, ?_⟩
  · unfold realtimeAcquireSteps
    have hb := scanSteps_le_length (fun s => s.st == SlotState.current) (run (mkPool n v) tr)
    omega
  · unfold realtimeReplaceSteps
    have hb := scanSteps_le_length (fun s => s.st == SlotState.free) (run (mkPool n v) tr)
    omega

/-!
Theorems about the declaration-level facts of RealtimeObject.hpp.
-/

/-- C3: under the realtimeMutatable policy realtimeAcquire returns a
mutable T and nonRealtimeAcquire a const T; under nonRealtimeMutatable,
realtimeAcquire returns const T and nonRealtimeAcquire mutable T — for
each policy, exactly the mutator side's acquire permits in-place
mutation. -/
theorem acquire_mutability (o : RealtimeObjectOptions) :
    (RealtimeAcquireReturnType o = RefKind.mutableRef ↔
      o = RealtimeObjectOptions.realtimeMutatable) ∧
    (NonRealtimeAcquireReturnType o = RefKind.mutableRef ↔
      o = RealtimeObjectOptions.nonRealtimeMutatable) ∧
    (acquireReturnKind o ThreadType.realtime = RefKind.mutableRef ↔
      mutatorSide o = ThreadType.realtime) ∧
    (acquireReturnKind o ThreadType.nonRealtime = RefKind.mutableRef ↔
      mutatorSide o = ThreadType.nonRealtime) := by
  cases o <;> decide

/-- C4: replace is only callable on the mutator side of the configured
policy: the realtimeReplace overload exists exactly under
realtimeMutatable, the nonRealtimeReplace overload exactly under
nonRealtimeMutatable; on the other side the overload does not exist at
all (SFINAE removes it at compile time), so no runtime error is
involved. -/
theorem replace_side_gating (o : RealtimeObjectOptions) :
    (realtimeReplaceEnabled o = true ↔ o = RealtimeObjectOptions.realtimeMutatable) ∧
    (nonRealtimeReplaceEnabled o = true ↔ o = RealtimeObjectOptions.nonRealtimeMutatable) ∧
    replaceEnabled o (mutatorSide o) = true ∧
    (replaceEnabled o ThreadType.realtime = true ↔ ThreadType.realtime = mutatorSide o) ∧
    (replaceEnabled o ThreadType.nonRealtime = true ↔ ThreadType.nonRealtime = mutatorSide o) := by
  cases o <;> decide

/-- C8: for every policy and thread-type parameter, the ScopedAccess guard
declares its copy constructor, move constructor, copy assignment and move
assignment deleted: it can be neither duplicated nor transferred. -/
theorem scoped_access_noncopyable (o : RealtimeObjectOptions) (t : ThreadType) :
    (scopedAccessSpecialMembers o t).copyCtorDeleted = true ∧
    (scopedAccessSpecialMembers o t).moveCtorDeleted = true ∧
    (scopedAccessSpecialMembers o t).copyAssignDeleted = true ∧
    (scopedAccessSpecialMembers o t).moveAssignDeleted = true := by
  cases o <;> cases t <;> decide

/-- C10: the three realtime-side methods are declared noexcept and the
three non-realtime-side methods are not: a method carries noexcept exactly
when it belongs to the realtime side. -/
theorem noexcept_exactly_realtime_side (m : MethodName) :
    (isNoexcept m = true ↔ methodSide m = ThreadType.realtime) ∧
    (isNoexcept m = false ↔ methodSide m = ThreadType.nonRealtime) := by
  cases m <;> decide

end FarbotModel
